import Mathlib

/-!
Verification development for the Super-Star-IPTV playback resilience core.

The definitions below are a shallow embedding of the TypeScript source:
`src/types.ts` (the `VideoPlayer` connection controller, its strategy
catalog, recovery logic, stall watchdog), `src/App.tsx` (`addToHistory`)
and `src/services/dataProcessor.ts` (`processSeries`).  Addresses are
modelled as `List Char`, JavaScript string primitives (`trim`, `includes`,
`replace`, `startsWith`, `encodeURIComponent`) as executable functions on
character lists, and the React component state as an explicit record with
one function per state-updating operation.  Display-only fields (the debug
message string) are not modelled.  Timers are modelled by explicit events:
a `setTimeout` scheduled by the code adds one pending timer, and a separate
function applies the effect of that timer firing.
-/

namespace IPTV

/-! ## JavaScript string primitives, on `List Char` -/

/-- Whitespace as JavaScript `\s` and `String.prototype.trim` recognise
it: tab, LF, VT, FF, CR, space, NBSP, OGHAM SPACE MARK (U+1680), the
U+2000-U+200A spaces, LINE SEPARATOR (U+2028), PARAGRAPH SEPARATOR
(U+2029), NARROW NO-BREAK SPACE (U+202F), MEDIUM MATHEMATICAL SPACE
(U+205F), IDEOGRAPHIC SPACE (U+3000) and ZWNBSP (U+FEFF). -/
def isWSChar (c : Char) : Bool :=
  c == ' ' || c == '\t' || c == '\n' || c == '\r' || c == '\x0b' || c == '\x0c' ||
    c == '\u00a0' || c == '\u1680' || (0x2000 ≤ c.toNat && c.toNat ≤ 0x200a) ||
    c == '\u2028' || c == '\u2029' || c == '\u202f' || c == '\u205f' ||
    c == '\u3000' || c == '\ufeff'

/-- JavaScript `String.prototype.trim`: drop whitespace from both ends. -/
def jsTrim (s : List Char) : List Char :=
  ((s.dropWhile isWSChar).reverse.dropWhile isWSChar).reverse

/-- Whether `pat` occurs as a contiguous substring, starting at any
position. -/
def hasSubAt (pat : List Char) : List Char → Bool
  | [] => pat.isPrefixOf []
  | c :: rest => pat.isPrefixOf (c :: rest) || hasSubAt pat rest

/-- JavaScript `String.prototype.includes`: substring containment. -/
def includesSub (pat s : List Char) : Bool :=
  hasSubAt pat s

/-- JavaScript `String.prototype.replace` with a plain-string pattern:
replace the first occurrence only (the pattern here is always non-empty). -/
def replaceFirst (pat repl : List Char) : List Char → List Char
  | [] => []
  | c :: rest =>
    if pat.isPrefixOf (c :: rest) then repl ++ (c :: rest).drop pat.length
    else c :: replaceFirst pat repl rest

/-- The characters JavaScript `encodeURIComponent` leaves unescaped. -/
def isUnreservedURI (c : Char) : Bool :=
  c.isAlpha || c.isDigit || c == '-' || c == '_' || c == '.' || c == '!' ||
    c == '~' || c == '*' || c == '\'' || c == '(' || c == ')'

/-- The UTF-8 bytes of a character, as natural numbers. -/
def utf8Bytes (c : Char) : List Nat :=
  let n := c.toNat
  if n < 0x80 then [n]
  else if n < 0x800 then [0xC0 + n / 64, 0x80 + n % 64]
  else if n < 0x10000 then [0xE0 + n / 4096, 0x80 + (n / 64) % 64, 0x80 + n % 64]
  else [0xF0 + n / 262144, 0x80 + (n / 4096) % 64, 0x80 + (n / 64) % 64, 0x80 + n % 64]

/-- Upper-case hexadecimal digit of a value below 16. -/
def hexDigit (n : Nat) : Char :=
  if n < 10 then Char.ofNat ('0'.toNat + n) else Char.ofNat ('A'.toNat + n - 10)

/-- Percent-encoding of one byte, `%XX`. -/
def pctByte (b : Nat) : List Char :=
  ['%', hexDigit (b / 16), hexDigit (b % 16)]

/-- JavaScript `encodeURIComponent`. -/
def encodeURIComponent (s : List Char) : List Char :=
  s.flatMap fun c => if isUnreservedURI c then [c] else (utf8Bytes c).flatMap pctByte

/-! ## Strategy catalog (`STRATEGIES` in src/types.ts) -/

inductive StrategyMode where
  | HLS
  | NATIVE
deriving DecidableEq, Repr

structure ConnectionStrategy where
  name : String
  mode : StrategyMode
  transform : List Char → List Char

/-- `'output=ts'`. -/
def outputTs : List Char := "output=ts".data

/-- `'output=m3u8'`. -/
def outputM3u8 : List Char := "output=m3u8".data

/-- `'.m3u8'`. -/
def extM3u8 : List Char := ".m3u8".data

/-- `'.mp4'`. -/
def extMp4 : List Char := ".mp4".data

/-- `'?'`. -/
def queryMark : List Char := "?".data

/-- Transform of strategy 0, "Direct Connection" (src/types.ts lines 94-105):
trim, rewrite `output=ts` to `output=m3u8`, else append `.m3u8` when the url
has no `.m3u8`, no `.mp4` and no `?`, else return the trimmed url. -/
def directTransform (u : List Char) : List Char :=
  let url := jsTrim u
  if includesSub outputTs url then replaceFirst outputTs outputM3u8 url
  else if !includesSub extM3u8 url && !includesSub extMp4 url && !includesSub queryMark url then
    url ++ extM3u8
  else url

/-- Transform of strategy 1, "Gateway 1 (Cloud)" (src/types.ts lines 107-116). -/
def gateway1Transform (u : List Char) : List Char :=
  let url0 := jsTrim u
  let url :=
    if includesSub outputTs url0 then replaceFirst outputTs outputM3u8 url0
    else if !includesSub extM3u8 url0 && !includesSub extMp4 url0 && !includesSub queryMark url0 then
      url0 ++ extM3u8
    else url0
  "https://corsproxy.io/?".data ++ encodeURIComponent url

/-- Transform of strategy 2, "Gateway 2 (Mirror)" (src/types.ts lines 118-126). -/
def gateway2Transform (u : List Char) : List Char :=
  let url0 := jsTrim u
  let url := if includesSub outputTs url0 then replaceFirst outputTs outputM3u8 url0 else url0
  "https://api.codetabs.com/v1/proxy?quest=".data ++ encodeURIComponent url

/-- Transform of strategy 3, "Native Player" (src/types.ts lines 128-132):
`(u) => u.trim()`. -/
def nativeTransform (u : List Char) : List Char :=
  jsTrim u

/-- The ordered strategy catalog (src/types.ts lines 91-133). -/
def STRATEGIES : List ConnectionStrategy :=
  [ { name := "Direct Connection", mode := .HLS, transform := directTransform },
    { name := "Gateway 1 (Cloud)", mode := .HLS, transform := gateway1Transform },
    { name := "Gateway 2 (Mirror)", mode := .HLS, transform := gateway2Transform },
    { name := "Native Player", mode := .NATIVE, transform := nativeTransform } ]

/-! ## Controller session state (the React state of `VideoPlayer`) -/

/-- The session fields the recovery logic reads and writes.
`pendingCooldowns` counts `setTimeout` callbacks scheduled by
`attemptNextStrategy` that have not yet fired (the code keeps no handle to
them, so they can never be cancelled). -/
structure PlayerState where
  strategyIndex : Nat
  retryCount : Nat
  isReconnecting : Bool
  pendingCooldowns : Nat
  loading : Bool
  error : Option String
deriving DecidableEq, Repr

/-- The `useState` initializer of `strategyIndex` (src/types.ts lines
161-168): on a secure (`https:`) hosting context with an address starting
with `http:`, start at index 1, else at index 0. -/
def initStrategyIndex (secureContext : Bool) (url : List Char) : Nat :=
  if secureContext && "http:".data.isPrefixOf url then 1 else 0

/-- The session as first created for a playback target. -/
def initState (secureContext : Bool) (url : List Char) : PlayerState :=
  { strategyIndex := initStrategyIndex secureContext url
    retryCount := 0
    isReconnecting := false
    pendingCooldowns := 0
    loading := true
    error := none }

/-- The cooldown delay of `attemptNextStrategy`, in milliseconds
(src/types.ts line 276: `setTimeout(..., 3000)`; one spec time-unit is
1000 ms). -/
def cooldownDelayMs : Nat := 3000

/-- The watchdog period, in milliseconds (src/types.ts line 323:
`setInterval(..., 5000)`). -/
def watchdogPeriodMs : Nat := 5000

/-- `attemptNextStrategy` (src/types.ts lines 260-280): below the last
catalog index, move to the next strategy; at the last index set
`isReconnecting` and schedule one cooldown timeout, leaving the index
unchanged. -/
def attemptNextStrategy (s : PlayerState) : PlayerState :=
  if s.strategyIndex < STRATEGIES.length - 1 then
    { s with strategyIndex := s.strategyIndex + 1 }
  else
    { s with isReconnecting := true, pendingCooldowns := s.pendingCooldowns + 1 }

/-- The body of the cooldown `setTimeout` (src/types.ts lines 272-276):
`setStrategyIndex(0); setRetryCount(c => c + 1); setIsReconnecting(false)`.
One pending timer is consumed. -/
def cooldownFire (s : PlayerState) : PlayerState :=
  { s with strategyIndex := 0
           retryCount := s.retryCount + 1
           isReconnecting := false
           pendingCooldowns := s.pendingCooldowns - 1 }

/-- `forceRetry` (src/types.ts lines 231-236): clear the error, reset the
visible retry counter, set `isReconnecting`, jump to strategy 0.  The code
holds no reference to a cooldown timeout, so none is cancelled. -/
def forceRetry (s : PlayerState) : PlayerState :=
  { s with error := none
           retryCount := 0
           isReconnecting := true
           strategyIndex := 0 }

/-! ## Error classification (the `hls.on(Hls.Events.ERROR)` handler) -/

/-- `data.type` of a fatal hls.js error. -/
inductive FatalErrorType where
  | networkError
  | mediaError
  | otherError
deriving DecidableEq, Repr

/-- A call the controller makes into the playback sink. -/
inductive SinkAction where
  | startLoad
  | recoverMediaError
  | destroy
deriving DecidableEq, Repr

/-- The fatal branch of the error handler (src/types.ts lines 354-371):
network errors get `hls.startLoad()` in place, media errors get
`hls.recoverMediaError()` in place, anything else destroys the sink and
calls `attemptNextStrategy`.  The handler keeps no memory of earlier
errors. -/
def handleFatalError (t : FatalErrorType) (s : PlayerState) : PlayerState × SinkAction :=
  match t with
  | .networkError => (s, .startLoad)
  | .mediaError => (s, .recoverMediaError)
  | .otherError => (attemptNextStrategy s, .destroy)

/-- The session state after a fatal sink error is handled. -/
def applyFatal (t : FatalErrorType) (s : PlayerState) : PlayerState :=
  (handleFatalError t s).1

/-! ## Stall watchdog -/

/-- The sink-side observables the watchdog reads. -/
structure MediaState where
  currentTime : ℚ
  paused : Bool
  readyState : Nat
deriving DecidableEq, Repr

/-- `handleStall` (src/types.ts lines 248-258): when a sink is attached,
nudge the playback position forward by 0.5 and call
`hls.recoverMediaError()`; the session state is untouched. -/
def handleStall (hlsAttached : Bool) (v : MediaState) (s : PlayerState) :
    MediaState × PlayerState × List SinkAction :=
  if hlsAttached then
    ({ v with currentTime := v.currentTime + 0.5 }, s, [SinkAction.recoverMediaError])
  else (v, s, [])

/-- One firing of the watchdog interval (src/types.ts lines 318-323): the
nudge runs only when the sink is not paused, reports `readyState < 3` and
the controller still believes it is loading. -/
def watchdogTick (hlsAttached : Bool) (v : MediaState) (s : PlayerState) :
    MediaState × PlayerState × List SinkAction :=
  if !v.paused && v.readyState < 3 && s.loading then handleStall hlsAttached v s
  else (v, s, [])

/-- `n` consecutive watchdog firings. -/
def watchdogIter (hlsAttached : Bool) (n : Nat) (p : MediaState × PlayerState) :
    MediaState × PlayerState :=
  (fun q => ((watchdogTick hlsAttached q.1 q.2).1, (watchdogTick hlsAttached q.1 q.2).2.1))^[n] p

/-! ## Reachable session states -/

/-- One controller event: an escalation, a pending cooldown timer firing, a
caller-forced retry, a classified fatal sink error, or a watchdog firing. -/
inductive Step : PlayerState → PlayerState → Prop where
  | escalate (s : PlayerState) : Step s (attemptNextStrategy s)
  | cooldownTimer (s : PlayerState) (h : 0 < s.pendingCooldowns) : Step s (cooldownFire s)
  | force (s : PlayerState) : Step s (forceRetry s)
  | sinkError (s : PlayerState) (t : FatalErrorType) : Step s (applyFatal t s)
  | watchdog (s : PlayerState) (hlsAttached : Bool) (v : MediaState) :
      Step s ((watchdogTick hlsAttached v s).2.1)

/-- A session state reachable from initialisation by controller events. -/
def Reachable (secureContext : Bool) (url : List Char) (s : PlayerState) : Prop :=
  Relation.ReflTransGen Step (initState secureContext url) s

/-! ## Channels and watch history (src/types.ts, src/App.tsx) -/

/-- `ContentType` of src/types.ts. -/
inductive ContentType where
  | LIVE
  | MOVIE
  | SERIES
deriving DecidableEq, Repr

/-- `Channel` of src/types.ts. -/
structure Channel where
  id : String
  name : String
  logo : Option String
  group : Option String
  url : String
  type : ContentType
deriving DecidableEq, Repr

/-- `addToHistory` in src/App.tsx (lines 49-56): drop earlier entries with
the same id, put the channel in front, keep the first 50. -/
def addToHistory (channel : Channel) (prev : List Channel) : List Channel :=
  let filtered := prev.filter fun c => c.id != channel.id
  (channel :: filtered).take 50

/-! ## Series grouping (src/services/dataProcessor.ts)

`processSeries` extracts a show name and season from each channel name
with two regexes tried in order,
`/^(.*?)\s?[-_]?\s?S(\d+)\s?E(\d+)/i` and
`/^(.*?)\s?[-_]?\s?(\d+)x(\d+)/i`, and buckets the channels into an
insertion-ordered map of series, each holding an insertion-ordered map of
seasons.  The matcher below implements the JavaScript semantics of those
two anchored patterns: the lazy `(.*?)` tries the shortest prefix first
(`.` not matching line terminators), each greedy `?` tries the consumed
alternative first, and `\d+` is maximal (nothing that follows it can match
a digit, so maximal munch is complete). -/

/-- JavaScript regex `.` (no dotAll flag): any character but a line
terminator. -/
def isDotChar (c : Char) : Bool :=
  !(c == '\n' || c == '\r' || c == ' ' || c == ' ')

/-- The character class `[-_]`. -/
def isDashChar (c : Char) : Bool :=
  c == '-' || c == '_'

/-- The remainders a greedy optional single-character class can leave, in
backtracking preference order (consume first). -/
def optChar (p : Char → Bool) : List Char → List (List Char)
  | [] => [[]]
  | c :: rest => if p c then [rest, c :: rest] else [c :: rest]

/-- The remainders of `\s?[-_]?\s?`, in backtracking preference order. -/
def sepCands (s : List Char) : List (List Char) :=
  (optChar isWSChar s).flatMap fun r1 => (optChar isDashChar r1).flatMap (optChar isWSChar)

/-- Maximal run of decimal digits and the remainder (`\d+` is maximal
here: what follows it in either pattern never matches a digit). -/
def takeDigits : List Char → List Char × List Char
  | [] => ([], [])
  | c :: rest =>
    if c.isDigit then
      let p := takeDigits rest
      (c :: p.1, p.2)
    else ([], c :: rest)

/-- Match `\s?[-_]?\s?S(\d+)\s?E(\d+)` (case-insensitive) at the start of
`s`, returning the season digits (group 2). -/
def seTailAt (s : List Char) : Option (List Char) :=
  (sepCands s).findSome? fun r =>
    match r with
    | [] => none
    | c :: r1 =>
      if c == 'S' || c == 's' then
        match takeDigits r1 with
        | ([], _) => none
        | (ds, r2) =>
          (optChar isWSChar r2).findSome? fun r3 =>
            match r3 with
            | [] => none
            | e :: r4 =>
              if e == 'E' || e == 'e' then
                match takeDigits r4 with
                | ([], _) => none
                | (_, _) => some ds
              else none
      else none

/-- Match `\s?[-_]?\s?(\d+)x(\d+)` (case-insensitive) at the start of `s`,
returning the season digits (group 2). -/
def altTailAt (s : List Char) : Option (List Char) :=
  (sepCands s).findSome? fun r =>
    match takeDigits r with
    | ([], _) => none
    | (ds, r2) =>
      match r2 with
      | [] => none
      | x :: r3 =>
        if x == 'x' || x == 'X' then
          match takeDigits r3 with
          | ([], _) => none
          | (_, _) => some ds
        else none

/-- The anchored lazy search `^(.*?)tail`: try the shortest prefix first,
extending it one non-terminator character at a time.  Returns group 1 and
the tail's season digits. -/
def lazyFind (tail : List Char → Option (List Char)) :
    List Char → List Char → Option (List Char × List Char)
  | acc, [] =>
    match tail [] with
    | some ds => some (acc.reverse, ds)
    | none => none
  | acc, c :: rest =>
    match tail (c :: rest) with
    | some ds => some (acc.reverse, ds)
    | none => if isDotChar c then lazyFind tail (c :: acc) rest else none

/-- `match[1].trim().replace(/[-_]$/, '').trim()`. -/
def cleanShowName (g1 : List Char) : List Char :=
  let t := jsTrim g1
  let t2 :=
    match t.reverse with
    | c :: rest => if isDashChar c then rest.reverse else t
    | [] => t
  jsTrim t2

/-- `parseInt(ds, 10)` on a non-empty digit string. -/
def digitsVal (ds : List Char) : Nat :=
  ds.foldl (fun n c => n * 10 + (c.toNat - '0'.toNat)) 0

/-- Show name and season key of a channel name (src/services/
dataProcessor.ts lines 12-26): try the `SxxEyy` pattern, then the `x`
pattern; on a match the show name is the cleaned group 1 and the season is
`parseInt(match[2], 10).toString()`; otherwise the whole name and season
`"1"`. -/
def parseShow (name : List Char) : List Char × List Char :=
  match lazyFind seTailAt [] name with
  | some (g1, ds) => (cleanShowName g1, (Nat.repr (digitsVal ds)).data)
  | none =>
    match lazyFind altTailAt [] name with
    | some (g1, ds) => (cleanShowName g1, (Nat.repr (digitsVal ds)).data)
    | none => (name, ['1'])

/-- The interpolation `${channel.group}` of a possibly-undefined field. -/
def groupRaw (c : Channel) : List Char :=
  match c.group with
  | some g => g.data
  | none => "undefined".data

/-- `channel.group || 'Uncategorized'` (empty string is falsy). -/
def groupOrDefault (c : Channel) : String :=
  match c.group with
  | some g => if g = "" then "Uncategorized" else g
  | none => "Uncategorized"

/-- JavaScript truthiness of an optional string. -/
def optTruthy (o : Option String) : Bool :=
  match o with
  | some s => !(s == "")
  | none => false

/-- The show name computed for a channel. -/
def showNameOf (c : Channel) : List Char :=
  (parseShow c.name.data).1

/-- The season key computed for a channel. -/
def seasonKeyOf (c : Channel) : List Char :=
  (parseShow c.name.data).2

/-- The series id `` `${channel.group}-${showName}` ``. -/
def seriesKeyOf (c : Channel) : List Char :=
  groupRaw c ++ '-' :: showNameOf c

/-- `Series` of src/types.ts, with the `seasons` record as an
insertion-ordered association list. -/
structure Series where
  id : List Char
  name : List Char
  cover : Option String
  group : String
  seasons : List (List Char × List Channel)
  episodeCount : Nat
deriving DecidableEq, Repr

/-- Push a channel onto the season bucket `seasonKey`, creating the bucket
at the end when it does not exist (JavaScript object insertion order). -/
def pushEpisode (seasonKey : List Char) (c : Channel) :
    List (List Char × List Channel) → List (List Char × List Channel)
  | [] => [(seasonKey, [c])]
  | (k, b) :: rest =>
    if k = seasonKey then (k, b ++ [c]) :: rest
    else (k, b) :: pushEpisode seasonKey c rest

/-- The per-channel update of an existing series entry (src/services/
dataProcessor.ts lines 41-53): push the episode, bump `episodeCount`,
fill in a missing cover. -/
def updateSeries (c : Channel) (s : Series) : Series :=
  { s with
    seasons := pushEpisode (seasonKeyOf c) c s.seasons
    episodeCount := s.episodeCount + 1
    cover := if !optTruthy s.cover && optTruthy c.logo then c.logo else s.cover }

/-- The series entry created when the id is new (src/services/
dataProcessor.ts lines 30-39). -/
def freshSeries (c : Channel) : Series :=
  { id := seriesKeyOf c
    name := showNameOf c
    group := groupOrDefault c
    cover := c.logo
    seasons := []
    episodeCount := 0 }

/-- One iteration of the `channels.forEach` body: find or create the
series entry for the channel's key, then update it in place
(`Map` insertion order: new keys go to the end). -/
def addChannel (m : List (List Char × Series)) (c : Channel) :
    List (List Char × Series) :=
  match m with
  | [] => [(seriesKeyOf c, updateSeries c (freshSeries c))]
  | (k, s) :: rest =>
    if k = seriesKeyOf c then (k, updateSeries c s) :: rest
    else (k, s) :: addChannel rest c

/-- `processSeries` (src/services/dataProcessor.ts lines 8-57):
fold the channels through the series map and return
`Array.from(seriesMap.values())`. -/
def processSeries (channels : List Channel) : List Series :=
  (channels.foldl addChannel []).map Prod.snd

/-- All channels stored under a series' seasons, in bucket order. -/
def seasonsFlat (s : Series) : List Channel :=
  s.seasons.flatMap Prod.snd

/-- All channels stored in a list of series. -/
def allEpisodes (l : List Series) : List Channel :=
  l.flatMap seasonsFlat

/-- All channels stored in a series map. -/
def mapEpisodes (m : List (List Char × Series)) : List Channel :=
  m.flatMap fun p => seasonsFlat p.2

/-- Internal consistency of one series-map entry: its id is its key, its
`episodeCount` counts the channels under its seasons, season keys are
unique, and every stored channel computes this series key and its bucket's
season key. -/
def EntryWF (p : List Char × Series) : Prop :=
  p.2.id = p.1 ∧
  p.2.episodeCount = (seasonsFlat p.2).length ∧
  (p.2.seasons.map Prod.fst).Nodup ∧
  ∀ q ∈ p.2.seasons, ∀ c ∈ q.2, seriesKeyOf c = p.1 ∧ seasonKeyOf c = q.1

/-- Internal consistency of the series map: unique keys, consistent
entries. -/
def MapWF (m : List (List Char × Series)) : Prop :=
  (m.map Prod.fst).Nodup ∧ ∀ p ∈ m, EntryWF p

/-- The Direct transform exactly as claim C7 words it: the three cases are
tested on the input address itself, and in the final case the input
address is returned unchanged.  Written only to compare against
`directTransform`, which is translated from the source. -/
def claimDirectTransform (url : List Char) : List Char :=
  if includesSub outputTs url then replaceFirst outputTs outputM3u8 url
  else if !includesSub extM3u8 url && !includesSub extMp4 url && !includesSub queryMark url then
    url ++ extM3u8
  else url

/-- A session that has reached the last catalog index. -/
def exhaustedState : PlayerState :=
  { strategyIndex := 3
    retryCount := 0
    isReconnecting := false
    pendingCooldowns := 0
    loading := true
    error := none }

/-- A concrete channel. -/
def chanA : Channel :=
  { id := "a", name := "Alpha", logo := none, group := none, url := "ua", type := .LIVE }

/-- Another concrete channel. -/
def chanB : Channel :=
  { id := "b", name := "Beta", logo := none, group := none, url := "ub", type := .LIVE }

/-! ## C1: in-place recovery for network/media fatal errors -/

/-- C1 counterexample: two consecutive `network` fatal errors.  The claim
says the recurrence escalates; in the code the handler is stateless, so
the second occurrence leaves the session identical (index 0, nothing
scheduled) and again answers with the in-place `startLoad` call. -/
theorem fatal_network_recurrence_cex :
    applyFatal .networkError (applyFatal .networkError (initState false [])) =
      initState false [] ∧
    (handleFatalError .networkError (applyFatal .networkError (initState false []))).2 =
      SinkAction.startLoad :=
  ⟨rfl, rfl⟩

/-- C1 as amended: a `network` (resp. `media`) fatal error always invokes
`startLoad` (resp. `recoverMediaError`) in place, and any number of
repeated signals of either category leaves the session state — in
particular the strategy index — unchanged; only the `other` category
escalates, destroying the sink and calling `attemptNextStrategy`. -/
theorem fatal_error_classification (s : PlayerState) (n : Nat) :
    handleFatalError .networkError s = (s, .startLoad) ∧
    handleFatalError .mediaError s = (s, .recoverMediaError) ∧
    (applyFatal .networkError)^[n] s = s ∧
    (applyFatal .mediaError)^[n] s = s ∧
    handleFatalError .otherError s = (attemptNextStrategy s, .destroy) :=
  ⟨rfl, rfl, Function.iterate_fixed rfl n, Function.iterate_fixed rfl n, rfl⟩

/-! ## C2: exhaustion enters cooldown, then restarts at index 0 -/

/-- C2: escalating at the last catalog index sets `isReconnecting` and
schedules one cooldown timeout (no terminal state: the index is kept);
the timeout — after the fixed 3000 ms delay — resets the index to 0,
increments `retryCycleCount` by exactly one and clears `isReconnecting`,
so a fresh `CONNECTING(0)` attempt starts. -/
theorem exhaustion_enters_cooldown (s : PlayerState)
    (h : s.strategyIndex = STRATEGIES.length - 1) :
    (attemptNextStrategy s).strategyIndex = s.strategyIndex ∧
    (attemptNextStrategy s).isReconnecting = true ∧
    (attemptNextStrategy s).pendingCooldowns = s.pendingCooldowns + 1 ∧
    cooldownDelayMs = 3000 ∧
    (cooldownFire (attemptNextStrategy s)).strategyIndex = 0 ∧
    (cooldownFire (attemptNextStrategy s)).retryCount = s.retryCount + 1 ∧
    (cooldownFire (attemptNextStrategy s)).isReconnecting = false ∧
    (cooldownFire (attemptNextStrategy s)).pendingCooldowns = s.pendingCooldowns := by
  have hlt : ¬ s.strategyIndex < STRATEGIES.length - 1 := by
    rw [h]
    exact lt_irrefl _
  simp only [attemptNextStrategy, if_neg hlt, cooldownFire]
  simp [cooldownDelayMs]

/-- C2 witness at a concrete exhausted session. -/
theorem exhaustion_enters_cooldown_witness :
    (attemptNextStrategy exhaustedState).strategyIndex = exhaustedState.strategyIndex ∧
    (attemptNextStrategy exhaustedState).isReconnecting = true ∧
    (attemptNextStrategy exhaustedState).pendingCooldowns = exhaustedState.pendingCooldowns + 1 ∧
    cooldownDelayMs = 3000 ∧
    (cooldownFire (attemptNextStrategy exhaustedState)).strategyIndex = 0 ∧
    (cooldownFire (attemptNextStrategy exhaustedState)).retryCount =
      exhaustedState.retryCount + 1 ∧
    (cooldownFire (attemptNextStrategy exhaustedState)).isReconnecting = false ∧
    (cooldownFire (attemptNextStrategy exhaustedState)).pendingCooldowns =
      exhaustedState.pendingCooldowns :=
  exhaustion_enters_cooldown exhaustedState rfl

/-! ## C4: the mixed-origin guard -/

/-- C4: a session created in a secure hosting context for an address
starting with `http:` begins at strategy index 1 (Direct skipped); in
every other case it begins at index 0. -/
theorem mixed_origin_guard (secureContext : Bool) (url : List Char) :
    (secureContext = true ∧ "http:".data.isPrefixOf url = true →
      initStrategyIndex secureContext url = 1) ∧
    (¬(secureContext = true ∧ "http:".data.isPrefixOf url = true) →
      initStrategyIndex secureContext url = 0) ∧
    (initState secureContext url).strategyIndex = initStrategyIndex secureContext url := by
  refine ⟨?_, ?_, rfl⟩
  · rintro ⟨hs, hu⟩
    simp [initStrategyIndex, hs, hu]
  · intro hn
    have hc : (secureContext && "http:".data.isPrefixOf url) = false := by
      cases hs : secureContext <;> cases hu : "http:".data.isPrefixOf url <;> simp_all
    simp [initStrategyIndex, hc]

/-! ## C5: forced retry and the stale cooldown timer -/

/-- C5 counterexample: exhaust the catalog (one cooldown timer pending),
force a retry, and let the superseded timer fire.  The claim says the
forced retry cancels the timer and nothing from the superseded cycle can
change the counters; in the code the timer is never cancelled, and its
firing bumps the visible retry counter from 0 to 1 and clears the
reconnecting flag. -/
theorem forceRetry_stale_cooldown_cex :
    (forceRetry (attemptNextStrategy exhaustedState)).pendingCooldowns = 1 ∧
    (forceRetry (attemptNextStrategy exhaustedState)).retryCount = 0 ∧
    (forceRetry (attemptNextStrategy exhaustedState)).isReconnecting = true ∧
    (cooldownFire (forceRetry (attemptNextStrategy exhaustedState))).retryCount = 1 ∧
    (cooldownFire (forceRetry (attemptNextStrategy exhaustedState))).isReconnecting = false :=
  ⟨rfl, rfl, rfl, rfl, rfl⟩

/-- C5 as amended: a forced retry clears the error, resets the visible
retry counter to 0, raises the reconnecting flag and jumps to
`CONNECTING(0)`; it does not cancel a pending cooldown timer — the number
of pending timers is unchanged, and a superseded timer that fires later
still sets the retry counter to 1 and clears the reconnecting flag. -/
theorem forceRetry_behavior (s : PlayerState) :
    (forceRetry s).strategyIndex = 0 ∧
    (forceRetry s).retryCount = 0 ∧
    (forceRetry s).isReconnecting = true ∧
    (forceRetry s).error = none ∧
    (forceRetry s).pendingCooldowns = s.pendingCooldowns ∧
    (cooldownFire (forceRetry s)).retryCount = 1 ∧
    (cooldownFire (forceRetry s)).isReconnecting = false ∧
    (cooldownFire (forceRetry s)).strategyIndex = 0 :=
  ⟨rfl, rfl, rfl, rfl, rfl, rfl, rfl, rfl⟩

/-! ## C7: the Direct transform -/

/-- C7 counterexample: the address `" x? "` has a query component, so by
the claim it is returned unchanged; the code trims it first, so the output
differs from the input. -/
theorem directTransform_cex :
    directTransform " x? ".data ≠ " x? ".data ∧
    claimDirectTransform " x? ".data = " x? ".data := by
  refine ⟨by decide, by decide⟩

/-- C7 as amended: the Direct transform first trims surrounding
whitespace, then behaves on the trimmed address exactly as the claim
describes (`claimDirectTransform` is that description verbatim); on an
address with no surrounding whitespace the claim holds as stated. -/
theorem directTransform_eq_claim_of_trim (u : List Char) :
    directTransform u = claimDirectTransform (jsTrim u) ∧
    (jsTrim u = u → directTransform u = claimDirectTransform u) := by
  refine ⟨rfl, fun h => ?_⟩
  calc directTransform u = claimDirectTransform (jsTrim u) := rfl
    _ = claimDirectTransform u := by rw [h]

/-! ## C8: the Native transform -/

/-- C8 counterexample: the Native transform trims, so it is not the
identity on an address with surrounding whitespace. -/
theorem nativeTransform_cex :
    nativeTransform " x ".data ≠ " x ".data := by
  decide

/-- C8 as amended: the Native transform returns the address trimmed of
surrounding whitespace; on an address without surrounding whitespace it
hands the canonical address through unchanged. -/
theorem nativeTransform_ident_of_trimmed (u : List Char) (h : jsTrim u = u) :
    nativeTransform u = u :=
  h

/-- C8 witness: a concrete already-trimmed address passes unchanged. -/
theorem nativeTransform_ident_witness :
    nativeTransform "http://host/movie.mp4".data = "http://host/movie.mp4".data :=
  nativeTransform_ident_of_trimmed "http://host/movie.mp4".data (by decide)

/-! ## C6: watchdog nudges -/

/-- A watchdog firing never touches the session state. -/
theorem watchdogTick_session (hlsAttached : Bool) (v : MediaState) (s : PlayerState) :
    (watchdogTick hlsAttached v s).2.1 = s := by
  unfold watchdogTick handleStall
  split
  · split <;> rfl
  · rfl

/-- Iterated watchdog firings never touch the session state. -/
theorem watchdogIter_session (hlsAttached : Bool) (n : Nat) (p : MediaState × PlayerState) :
    (watchdogIter hlsAttached n p).2 = p.2 := by
  induction n generalizing p with
  | zero => rfl
  | succ k ih =>
    unfold watchdogIter at ih ⊢
    rw [Function.iterate_succ_apply]
    rw [ih]
    exact watchdogTick_session hlsAttached p.1 p.2

/-- C6: when the watchdog fires on an unpaused, unready (`readyState < 3`),
still-loading attempt with an attached sink, the nudge advances the
playback position by exactly 0.5 and invokes the sink's
`recoverMediaError` primitive; and any number of consecutive watchdog
firings, under any conditions, leaves `strategyIndex` and `retryCount`
(indeed the whole session state) unchanged. -/
theorem watchdog_nudge (v : MediaState) (s : PlayerState)
    (hp : v.paused = false) (hr : v.readyState < 3) (hl : s.loading = true) :
    (watchdogTick true v s).1.currentTime = v.currentTime + 0.5 ∧
    (watchdogTick true v s).2.2 = [SinkAction.recoverMediaError] ∧
    ∀ (hlsAttached : Bool) (n : Nat) (p : MediaState × PlayerState),
      (watchdogIter hlsAttached n p).2.strategyIndex = p.2.strategyIndex ∧
      (watchdogIter hlsAttached n p).2.retryCount = p.2.retryCount := by
  have hc : (!v.paused && decide (v.readyState < 3) && s.loading) = true := by
    simp [hp, hr, hl]
  have ht : watchdogTick true v s =
      ({ v with currentTime := v.currentTime + 0.5 }, s, [SinkAction.recoverMediaError]) := by
    unfold watchdogTick
    rw [if_pos hc]
    rfl
  refine ⟨by rw [ht], by rw [ht], fun hlsAttached n p => ?_⟩
  rw [watchdogIter_session hlsAttached n p]
  exact ⟨rfl, rfl⟩

/-- C6 witness at a concrete stalled attempt. -/
theorem watchdog_nudge_witness :
    (watchdogTick true { currentTime := 7, paused := false, readyState := 2 }
        (initState false [])).1.currentTime = (7 : ℚ) + 0.5 ∧
    (watchdogTick true { currentTime := 7, paused := false, readyState := 2 }
        (initState false [])).2.2 = [SinkAction.recoverMediaError] ∧
    ∀ (hlsAttached : Bool) (n : Nat) (p : MediaState × PlayerState),
      (watchdogIter hlsAttached n p).2.strategyIndex = p.2.strategyIndex ∧
      (watchdogIter hlsAttached n p).2.retryCount = p.2.retryCount :=
  watchdog_nudge { currentTime := 7, paused := false, readyState := 2 }
    (initState false []) rfl (by decide) rfl

/-! ## C3: the strategy index is always a valid catalog index -/

/-- `attemptNextStrategy` keeps the index below the catalog length. -/
theorem attemptNextStrategy_lt (s : PlayerState)
    (h : s.strategyIndex < STRATEGIES.length) :
    (attemptNextStrategy s).strategyIndex < STRATEGIES.length := by
  unfold attemptNextStrategy
  split
  · next hlt =>
    have hlen : STRATEGIES.length = 4 := rfl
    simp only []
    omega
  · exact h

/-- Every controller event keeps the index below the catalog length. -/
theorem step_strategyIndex_lt (s s2 : PlayerState) (hs : Step s s2)
    (h : s.strategyIndex < STRATEGIES.length) :
    s2.strategyIndex < STRATEGIES.length := by
  cases hs with
  | escalate => exact attemptNextStrategy_lt s h
  | cooldownTimer =>
    have hlen : STRATEGIES.length = 4 := rfl
    simp [cooldownFire, hlen]
  | force =>
    have hlen : STRATEGIES.length = 4 := rfl
    simp [forceRetry, hlen]
  | sinkError t =>
    cases t with
    | networkError => exact h
    | mediaError => exact h
    | otherError => exact attemptNextStrategy_lt s h
  | watchdog hlsAttached v =>
    rw [watchdogTick_session hlsAttached v s]
    exact h

/-- C3: in every reachable session state the strategy index is a valid
index into the 4-entry catalog, `0 ≤ currentStrategyIndex ≤ 3`. -/
theorem strategyIndex_always_valid (secureContext : Bool) (url : List Char)
    (s : PlayerState) (h : Reachable secureContext url s) :
    s.strategyIndex ≤ 3 ∧ s.strategyIndex < STRATEGIES.length := by
  have hlen : STRATEGIES.length = 4 := rfl
  suffices hlt : s.strategyIndex < STRATEGIES.length by
    omega
  induction h with
  | refl =>
    simp only [initState, initStrategyIndex, hlen]
    split <;> omega
  | tail _ hstep ih => exact step_strategyIndex_lt _ _ hstep ih

/-- C3 witness: the invariant holds of the freshly initialised session. -/
theorem strategyIndex_always_valid_witness :
    (initState false "http://x".data).strategyIndex ≤ 3 ∧
    (initState false "http://x".data).strategyIndex < STRATEGIES.length :=
  strategyIndex_always_valid false "http://x".data _ Relation.ReflTransGen.refl

/-! ## C9: watch history -/

/-- C9 counterexample: the claim quantifies over every prior history list,
but `addToHistory` only deduplicates the id being added — a prior list
that already repeats some other id keeps its duplicates. -/
theorem addToHistory_nodup_cex :
    ¬ ((addToHistory chanA [chanB, chanB]).map Channel.id).Nodup := by
  decide

/-- C9 as amended: the updated history always puts the played channel in
front and has length at most 50; when the prior history has no duplicate
ids, neither has the updated one; and re-adding a channel whose id is
already present never grows the list. -/
theorem addToHistory_spec (channel : Channel) (prev : List Channel) :
    (addToHistory channel prev).head? = some channel ∧
    (addToHistory channel prev).length ≤ 50 ∧
    ((prev.map Channel.id).Nodup → ((addToHistory channel prev).map Channel.id).Nodup) ∧
    (channel.id ∈ prev.map Channel.id →
      (addToHistory channel prev).length ≤ prev.length) := by
  refine ⟨?_, ?_, ?_, ?_⟩
  · rfl
  · exact List.length_take_le 50 _
  · intro hnd
    have hsub : List.Sublist ((addToHistory channel prev).map Channel.id)
        ((channel :: prev.filter fun c => c.id != channel.id).map Channel.id) :=
      List.Sublist.map Channel.id (List.take_sublist 50 _)
    refine List.Nodup.sublist hsub ?_
    simp only [List.map_cons, List.nodup_cons]
    constructor
    · intro hmem
      rcases List.mem_map.mp hmem with ⟨c, hc, hcid⟩
      rcases List.mem_filter.mp hc with ⟨_, hne⟩
      rw [hcid] at hne
      simp at hne
    · exact hnd.sublist (List.Sublist.map Channel.id (List.filter_sublist prev))
  · intro hmem
    rcases List.mem_map.mp hmem with ⟨c, hc, hcid⟩
    have hlt : (prev.filter fun x => x.id != channel.id).length < prev.length := by
      refine List.length_filter_lt_length_iff_exists.mpr ?_
      exact ⟨c, hc, by simp [hcid]⟩
    calc (addToHistory channel prev).length
        ≤ (channel :: prev.filter fun x => x.id != channel.id).length :=
          (List.take_sublist 50 _).length_le
      _ ≤ prev.length := by
          simp only [List.length_cons]
          omega

/-! ## C10: `processSeries` partitions the channels -/

/-- Pushing an episode adds exactly that channel to the flattened season
contents. -/
theorem pushEpisode_flat_perm (k : List Char) (c : Channel)
    (ss : List (List Char × List Channel)) :
    ((pushEpisode k c ss).flatMap Prod.snd).Perm (c :: ss.flatMap Prod.snd) := by
  induction ss with
  | nil => simp [pushEpisode]
  | cons p rest ih =>
    obtain ⟨k0, b⟩ := p
    by_cases hk : k0 = k
    · simp only [pushEpisode, if_pos hk, List.flatMap_cons, List.append_assoc,
        List.singleton_append]
      exact List.perm_middle
    · simp only [pushEpisode, if_neg hk, List.flatMap_cons]
      exact (ih.append_left b).trans List.perm_middle

/-- Every season key after a push is an old key or the pushed key. -/
theorem pushEpisode_keys_subset (k x : List Char) (c : Channel)
    (ss : List (List Char × List Channel))
    (hx : x ∈ (pushEpisode k c ss).map Prod.fst) :
    x ∈ ss.map Prod.fst ∨ x = k := by
  induction ss with
  | nil =>
    simp [pushEpisode] at hx
    exact Or.inr hx
  | cons p rest ih =>
    obtain ⟨k0, b⟩ := p
    by_cases hk : k0 = k
    · simp only [pushEpisode, if_pos hk, List.map_cons, List.mem_cons] at hx
      rcases hx with hx | hx
      · exact Or.inl (by simp [hx])
      · exact Or.inl (by simp [hx])
    · simp only [pushEpisode, if_neg hk, List.map_cons, List.mem_cons] at hx
      rcases hx with hx | hx
      · exact Or.inl (by simp [hx])
      · rcases ih hx with h | h
        · exact Or.inl (by simp [h])
        · exact Or.inr h

/-- Pushing an episode keeps the season keys duplicate-free. -/
theorem pushEpisode_keys_nodup (k : List Char) (c : Channel)
    (ss : List (List Char × List Channel))
    (h : (ss.map Prod.fst).Nodup) :
    ((pushEpisode k c ss).map Prod.fst).Nodup := by
  induction ss with
  | nil => simp [pushEpisode]
  | cons p rest ih =>
    obtain ⟨k0, b⟩ := p
    simp only [List.map_cons, List.nodup_cons] at h
    by_cases hk : k0 = k
    · simp only [pushEpisode, if_pos hk, List.map_cons, List.nodup_cons]
      exact h
    · simp only [pushEpisode, if_neg hk, List.map_cons, List.nodup_cons]
      refine ⟨fun hmem => ?_, ih h.2⟩
      rcases pushEpisode_keys_subset k k0 c rest hmem with hin | heq
      · exact h.1 hin
      · exact hk heq

/-- A per-channel property of the buckets is preserved by a push that
satisfies it. -/
theorem pushEpisode_forall (P : Channel → List Char → Prop) (k : List Char) (c : Channel)
    (ss : List (List Char × List Channel))
    (hss : ∀ q ∈ ss, ∀ x ∈ q.2, P x q.1) (hc : P c k) :
    ∀ q ∈ pushEpisode k c ss, ∀ x ∈ q.2, P x q.1 := by
  induction ss with
  | nil =>
    intro q hq x hx
    simp only [pushEpisode, List.mem_singleton] at hq
    subst hq
    simp only [List.mem_singleton] at hx
    subst hx
    exact hc
  | cons p rest ih =>
    obtain ⟨k0, b⟩ := p
    by_cases hk : k0 = k
    · intro q hq x hx
      simp only [pushEpisode, if_pos hk, List.mem_cons] at hq
      rcases hq with hq | hq
      · subst hq
        simp only [List.mem_append, List.mem_singleton] at hx
        rcases hx with hx | hx
        · exact hss (k0, b) (by simp) x hx
        · subst hx
          rw [hk]
          exact hc
      · exact hss q (by simp [hq]) x hx
    · intro q hq x hx
      simp only [pushEpisode, if_neg hk, List.mem_cons] at hq
      rcases hq with hq | hq
      · subst hq
        exact hss (k0, b) (by simp) x hx
      · exact ih (fun q2 hq2 => hss q2 (by simp [hq2])) q hq x hx

/-- Updating a well-formed entry with a channel that maps to its key keeps
it well-formed. -/
theorem updateSeries_wf (c : Channel) (p : List Char × Series)
    (hp : EntryWF p) (hkey : seriesKeyOf c = p.1) :
    EntryWF (p.1, updateSeries c p.2) := by
  obtain ⟨hid, hcount, hnd, hball⟩ := hp
  refine ⟨hid, ?_, ?_, ?_⟩
  · have hperm := pushEpisode_flat_perm (seasonKeyOf c) c p.2.seasons
    have hlen := hperm.length_eq
    simp only [List.length_cons] at hlen
    simp only [updateSeries, seasonsFlat] at hcount hlen ⊢
    omega
  · exact pushEpisode_keys_nodup _ c _ hnd
  · exact pushEpisode_forall (fun x k2 => seriesKeyOf x = p.1 ∧ seasonKeyOf x = k2)
      (seasonKeyOf c) c p.2.seasons hball ⟨hkey, rfl⟩

/-- The entry created for a new series key is well-formed. -/
theorem freshEntry_wf (c : Channel) :
    EntryWF (seriesKeyOf c, updateSeries c (freshSeries c)) := by
  have h0 : EntryWF (seriesKeyOf c, freshSeries c) := by
    refine ⟨rfl, rfl, by simp [freshSeries], ?_⟩
    intro q hq
    simp [freshSeries] at hq
  exact updateSeries_wf c (seriesKeyOf c, freshSeries c) h0 rfl

/-- Every key after `addChannel` is an old key or the channel's key. -/
theorem addChannel_keys_subset (m : List (List Char × Series)) (c : Channel)
    (x : List Char) (hx : x ∈ (addChannel m c).map Prod.fst) :
    x ∈ m.map Prod.fst ∨ x = seriesKeyOf c := by
  induction m with
  | nil =>
    simp [addChannel] at hx
    exact Or.inr hx
  | cons p rest ih =>
    obtain ⟨k, s⟩ := p
    by_cases hk : k = seriesKeyOf c
    · simp only [addChannel, if_pos hk, List.map_cons, List.mem_cons] at hx
      rcases hx with hx | hx
      · subst hx
        exact Or.inl (List.mem_cons_self _ _)
      · exact Or.inl (List.mem_cons_of_mem _ hx)
    · simp only [addChannel, if_neg hk, List.map_cons, List.mem_cons] at hx
      rcases hx with hx | hx
      · subst hx
        exact Or.inl (List.mem_cons_self _ _)
      · rcases ih hx with h | h
        · exact Or.inl (List.mem_cons_of_mem _ h)
        · exact Or.inr h

/-- `addChannel` preserves the map invariant. -/
theorem addChannel_wf (m : List (List Char × Series)) (c : Channel)
    (h : MapWF m) : MapWF (addChannel m c) := by
  induction m with
  | nil =>
    refine ⟨by simp [addChannel], ?_⟩
    intro p hp
    simp only [addChannel, List.mem_singleton] at hp
    subst hp
    exact freshEntry_wf c
  | cons q rest ih =>
    obtain ⟨k, s⟩ := q
    obtain ⟨hnd, hall⟩ := h
    simp only [List.map_cons, List.nodup_cons] at hnd
    by_cases hk : k = seriesKeyOf c
    · refine ⟨?_, ?_⟩
      · simp only [addChannel, if_pos hk, List.map_cons, List.nodup_cons]
        exact hnd
      · intro p hp
        simp only [addChannel, if_pos hk, List.mem_cons] at hp
        rcases hp with hp | hp
        · subst hp
          exact updateSeries_wf c (k, s) (hall (k, s) (by simp)) (by rw [hk])
        · exact hall p (by simp [hp])
    · have hrest : MapWF rest := ⟨hnd.2, fun p hp => hall p (by simp [hp])⟩
      obtain ⟨ihnd, ihall⟩ := ih hrest
      refine ⟨?_, ?_⟩
      · simp only [addChannel, if_neg hk, List.map_cons, List.nodup_cons]
        refine ⟨fun hmem => ?_, ihnd⟩
        rcases addChannel_keys_subset rest c k hmem with hin | heq
        · exact hnd.1 hin
        · exact hk heq
      · intro p hp
        simp only [addChannel, if_neg hk, List.mem_cons] at hp
        rcases hp with hp | hp
        · subst hp
          exact hall (k, s) (by simp)
        · exact ihall p hp

/-- `addChannel` adds exactly the channel to the stored contents. -/
theorem addChannel_flat_perm (m : List (List Char × Series)) (c : Channel) :
    (mapEpisodes (addChannel m c)).Perm (c :: mapEpisodes m) := by
  induction m with
  | nil =>
    simp [addChannel, mapEpisodes, seasonsFlat, updateSeries, freshSeries, pushEpisode]
  | cons q rest ih =>
    obtain ⟨k, s⟩ := q
    by_cases hk : k = seriesKeyOf c
    · simp only [addChannel, if_pos hk, mapEpisodes, List.flatMap_cons]
      have h1 : (seasonsFlat (updateSeries c s)).Perm (c :: seasonsFlat s) :=
        pushEpisode_flat_perm (seasonKeyOf c) c s.seasons
      exact h1.append_right _
    · simp only [addChannel, if_neg hk, mapEpisodes, List.flatMap_cons]
      simp only [mapEpisodes] at ih
      exact (List.Perm.append_left _ ih).trans List.perm_middle

/-- Folding channels into the map keeps the invariant. -/
theorem foldl_addChannel_wf (cs : List Channel) (m : List (List Char × Series))
    (h : MapWF m) : MapWF (cs.foldl addChannel m) := by
  induction cs generalizing m with
  | nil => exact h
  | cons c rest ih => exact ih (addChannel m c) (addChannel_wf m c h)

/-- Folding channels into the map appends exactly those channels to the
stored contents, up to order. -/
theorem foldl_addChannel_flat_perm (cs : List Channel) (m : List (List Char × Series)) :
    (mapEpisodes (cs.foldl addChannel m)).Perm (mapEpisodes m ++ cs) := by
  induction cs generalizing m with
  | nil => simp
  | cons c rest ih =>
    have h1 := ih (addChannel m c)
    have h2 := (addChannel_flat_perm m c).append_right rest
    exact (h1.trans h2).trans List.perm_middle.symm

/-- C10: `processSeries` loses and duplicates nothing: the stored channels
are a permutation of the input, series ids are unique, each series'
`episodeCount` counts the channels under its seasons, season keys are
unique within a series and every stored channel sits in the one series and
season bucket its name and group determine, and the `episodeCount`s sum to
the input length. -/
theorem processSeries_partition (cs : List Channel) :
    (allEpisodes (processSeries cs)).Perm cs ∧
    ((processSeries cs).map Series.id).Nodup ∧
    (∀ s ∈ processSeries cs, s.episodeCount = (seasonsFlat s).length ∧
      (s.seasons.map Prod.fst).Nodup ∧
      ∀ q ∈ s.seasons, ∀ c ∈ q.2, seriesKeyOf c = s.id ∧ seasonKeyOf c = q.1) ∧
    ((processSeries cs).map Series.episodeCount).sum = cs.length := by
  have hwf : MapWF (cs.foldl addChannel []) :=
    foldl_addChannel_wf cs [] ⟨by simp, by simp⟩
  have hperm0 : (mapEpisodes (cs.foldl addChannel [])).Perm cs := by
    have h := foldl_addChannel_flat_perm cs []
    simpa [mapEpisodes] using h
  have hall : allEpisodes (processSeries cs) = mapEpisodes (cs.foldl addChannel []) := by
    simp [processSeries, allEpisodes, mapEpisodes, List.flatMap_map]
  refine ⟨?_, ?_, ?_, ?_⟩
  · rw [hall]
    exact hperm0
  · have hids : (processSeries cs).map Series.id =
        (cs.foldl addChannel []).map Prod.fst := by
      simp only [processSeries, List.map_map]
      exact List.map_congr_left fun p hp => (hwf.2 p hp).1
    rw [hids]
    exact hwf.1
  · intro s hs
    rcases List.mem_map.mp hs with ⟨p, hp, hps⟩
    obtain ⟨hid, hcount, hnd, hball⟩ := hwf.2 p hp
    subst hps
    exact ⟨hcount, hnd, fun q hq c hc =>
      ⟨by rw [(hball q hq c hc).1, hid], (hball q hq c hc).2⟩⟩
  · have hsum : ((processSeries cs).map Series.episodeCount).sum =
        (mapEpisodes (cs.foldl addChannel [])).length := by
      have hmap : (processSeries cs).map Series.episodeCount =
          (cs.foldl addChannel []).map fun p => (seasonsFlat p.2).length := by
        simp only [processSeries, List.map_map]
        exact List.map_congr_left fun p hp => (hwf.2 p hp).2.1
      rw [hmap, mapEpisodes, List.length_flatMap]
      simp [Function.comp_def]
    rw [hsum]
    exact hperm0.length_eq

end IPTV
